import Mathlib

/-!
A verification development for the go-tfe streaming log reader and the
Projects CRUD operations.

The streaming log reader (spec sections 2-4, 8) is embedded as a marker
framer (a stateful byte scanner) together with a poll loop driven by a
chunk stream, a completion oracle and a check schedule.  The Projects
operations of projects.go are embedded directly, with the HTTP layer
abstracted by an environment function and the list of issued requests
made explicit.

Bytes are modelled as natural numbers; the START marker is 0x02 = 2 and
the END marker is 0x03 = 3.
-/

/-! ## The marker framer -/

/-- Modelled from the spec: the states of the MarkerFramer (spec section 4.1),
whose implementation file is absent from src/ (only its integration tests
are present).  The state `start` means no non-empty chunk has been seen yet;
`inBody` is IN_BODY; `done` is DONE; `passThrough` is the pass-through mode
of spec section 4.1 entered when the first non-empty chunk carries no START
marker (the causal resolution forced by TestLogReader_withoutMarkers, which
requires marker-free chunks to be delivered verbatim). -/
inductive FramerState where
  | start
  | inBody
  | passThrough
  | done
deriving DecidableEq, Repr

/-- Modelled from the spec: the IN_BODY scan of spec section 4.1.  Scan the
chunk for END (3).  If found, the payload is the part strictly before it
and the framer is DONE; otherwise the whole chunk is payload. -/
def scanBody (c : List Nat) : FramerState × List Nat :=
  if c.contains 3 then (FramerState.done, c.takeWhile (fun b => b != 3))
  else (FramerState.inBody, c)

/-- Modelled from the spec: `process(chunk) -> payload` of the MarkerFramer
(spec section 4.1), absent from src/.  An empty chunk yields no payload and
no state change.  In `start`, the first non-empty chunk decides the mode:
if it contains START (2), everything up to and including the first START is
discarded and the remainder is scanned for END in the same call; otherwise
the framer goes to pass-through mode and every byte from this chunk onward
is payload.  In DONE, all further bytes are discarded. -/
def process : FramerState → List Nat → FramerState × List Nat
  | FramerState.start, c =>
    if c.isEmpty then (FramerState.start, [])
    else if c.contains 2 then scanBody ((c.dropWhile (fun b => b != 2)).tail)
    else (FramerState.passThrough, c)
  | FramerState.inBody, c => scanBody c
  | FramerState.passThrough, c => (FramerState.passThrough, c)
  | FramerState.done, _ => (FramerState.done, [])

/-- Run the framer over a list of chunks, returning the final framer state
and the concatenation of all emitted payloads. -/
def runFramer : FramerState → List (List Nat) → FramerState × List Nat
  | fs, [] => (fs, [])
  | fs, c :: cs =>
    let fp := process fs c
    let rest := runFramer fp.1 cs
    (rest.1, fp.2 ++ rest.2)

/-- The total payload emitted by the framer across a list of chunks. -/
def processAll (fs : FramerState) (cs : List (List Nat)) : List Nat :=
  (runFramer fs cs).2

/-! ## The poll loop -/

/-- Modelled from the spec: the observable state of one log session
(spec section 3): the framer state, the number of fetches issued so far,
the payload delivered to the consumer so far, and the list of fetch
indices at which the completion oracle was consulted. -/
structure LoopState where
  fs : FramerState
  reads : Nat
  output : List Nat
  checkLog : List Nat
deriving DecidableEq, Repr

/-- The initial state of a log session. -/
def initLS : LoopState :=
  { fs := FramerState.start, reads := 0, output := [], checkLog := [] }

/-- The result of one fetch-frame-check cycle: payload was delivered, or
nothing happened, or the stream ended, or the oracle failed. -/
inductive CycleResult where
  | progressed (payload : List Nat) (s : LoopState)
  | idle (s : LoopState)
  | eofR (s : LoopState)
  | failedR (s : LoopState)
deriving DecidableEq, Repr

/-- Modelled from the spec: one cycle of the PollLoop (spec section 4.2),
absent from src/.  Fetch the next chunk, frame it, and deliver any payload.
On a progress-less cycle, consult the completion oracle when the end marker
has been observed (forced, as TestLogReader_withMarkersSingle and
TestLogReader_withMarkersMulti pin: the end marker alone does not close the
stream) or when the backoff schedule `sched` fires; a true answer ends the
stream, an oracle error fails it.  The exact backoff schedule is left
abstract (the spec marks its constants as an open question). -/
def cycle (chunks : Nat → List Nat) (oracle : Nat → Except Unit Bool)
    (sched : Nat → Bool) (s : LoopState) : CycleResult :=
  let r := s.reads + 1
  let fp := process s.fs (chunks r)
  let s1 : LoopState :=
    { fs := fp.1, reads := r, output := s.output ++ fp.2, checkLog := s.checkLog }
  if fp.2 = [] then
    if fp.1 = FramerState.done ∨ sched r = true then
      let s2 : LoopState := { s1 with checkLog := s.checkLog ++ [r] }
      match oracle r with
      | Except.error _ => CycleResult.failedR s2
      | Except.ok true => CycleResult.eofR s2
      | Except.ok false => CycleResult.idle s2
    else CycleResult.idle s1
  else CycleResult.progressed fp.2 s1

/-- How a terminated session ended: end-of-stream or a recorded failure. -/
inductive DriveDone where
  | eofD
  | failedD
deriving DecidableEq, Repr

/-- Modelled from the spec: run the PollLoop until the stream terminates
(end-of-stream or failure), with fuel bounding the number of cycles.
`none` means the session was still running when the fuel ran out. -/
def drive (chunks : Nat → List Nat) (oracle : Nat → Except Unit Bool)
    (sched : Nat → Bool) : Nat → LoopState → Option (DriveDone × LoopState)
  | 0, _ => none
  | Nat.succ fuel, s =>
    match cycle chunks oracle sched s with
    | CycleResult.progressed _ s2 => drive chunks oracle sched fuel s2
    | CycleResult.idle s2 => drive chunks oracle sched fuel s2
    | CycleResult.eofR s2 => some (DriveDone.eofD, s2)
    | CycleResult.failedR s2 => some (DriveDone.failedD, s2)

/-- The status part of one consumer-facing read call: payload bytes were
returned, or end-of-stream, or the recorded terminal error. -/
inductive ReadStatus where
  | okR
  | eofS
  | failedS
deriving DecidableEq, Repr

/-- Modelled from the spec: one consumer-facing read call (spec section 4.3),
absent from src/.  It blocks (cycles) until at least one payload byte is
available, until end-of-stream, or until a terminal error, with fuel
bounding the number of cycles. -/
def readCall (chunks : Nat → List Nat) (oracle : Nat → Except Unit Bool)
    (sched : Nat → Bool) : Nat → LoopState → Option (List Nat × ReadStatus × LoopState)
  | 0, _ => none
  | Nat.succ fuel, s =>
    match cycle chunks oracle sched s with
    | CycleResult.progressed p s2 => some (p, ReadStatus.okR, s2)
    | CycleResult.idle s2 => readCall chunks oracle sched fuel s2
    | CycleResult.eofR s2 => some ([], ReadStatus.eofS, s2)
    | CycleResult.failedR s2 => some ([], ReadStatus.failedS, s2)

/-- The chunks fetched by the first `n` fetches (fetch indices start at 1). -/
def fetched (chunks : Nat → List Nat) (n : Nat) : List (List Nat) :=
  (List.range' 1 n).map chunks

/-! ## Projects (projects.go) -/

/-- The sentinel errors returned by the Projects operations.  The error
values themselves are declared outside src/; their identities are all the
claims use. -/
inductive ApiError where
  | ErrInvalidOrg
  | ErrInvalidProjectID
  | ErrRequiredName
  | ErrInvalidName
deriving DecidableEq, Repr

/-- A Terraform Enterprise project (projects.go, type Project); the
Organization relation is dropped as no claim mentions it. -/
structure Project where
  id : String
  name : String
deriving DecidableEq, Repr

/-- An HTTP request as built by Client.NewRequest: a method and a path. -/
structure Request where
  method : String
  path : String
deriving DecidableEq, Repr

/-- Modelled from the spec: the character class of the go-tfe valid-string-ID
helper (absent from src/), `^[a-zA-Z0-9\-\._]+$`. -/
def validStringIDChar (ch : Char) : Bool :=
  ch.isAlphanum || ch == '-' || ch == '.' || ch == '_'

/-- Modelled from the spec: the go-tfe helper validStringID (absent from
src/): a non-nil, non-empty string of characters valid in a string ID.
A Go *string is modelled as an Option String. -/
def validStringID (v : Option String) : Bool :=
  match v with
  | none => false
  | some s => !(s == "") && s.toList.all validStringIDChar

/-- Modelled from the spec: the go-tfe helper validString (absent from
src/): a non-nil, non-empty string. -/
def validString (v : Option String) : Bool :=
  match v with
  | none => false
  | some s => !(s == "")

/-- One hexadecimal digit (uppercase), for percent-encoding. -/
def hexDigit (n : Nat) : Char :=
  if n < 10 then Char.ofNat (48 + n) else Char.ofNat (55 + n)

/-- Whether a byte is left unescaped by Go url.QueryEscape:
alphanumerics and - _ . ~ . -/
def isUnreservedByte (b : Nat) : Bool :=
  (65 ≤ b && b ≤ 90) || (97 ≤ b && b ≤ 122) || (48 ≤ b && b ≤ 57) ||
    b == 45 || b == 95 || b == 46 || b == 126

/-- Percent-encode one byte as Go url.QueryEscape does: unreserved bytes
stand for themselves, a space becomes a plus, anything else becomes a
percent sign and two hex digits. -/
def escapeByte (b : Nat) : List Char :=
  if isUnreservedByte b then [Char.ofNat b]
  else if b == 32 then ['+']
  else ['%', hexDigit (b / 16), hexDigit (b % 16)]

/-- Go url.QueryEscape over the UTF-8 bytes of a string. -/
def queryEscape (s : String) : String :=
  String.mk ((s.toUTF8.toList.map (fun b => b.toNat)).flatMap escapeByte)

/-- The options for creating a project (projects.go).  The jsonapi Type
field is protocol plumbing and carries no data; Name models the *string
field. -/
structure ProjectCreateOptions where
  Name : Option String
deriving DecidableEq, Repr

/-- The options for updating a project (projects.go). -/
structure ProjectUpdateOptions where
  Name : Option String
deriving DecidableEq, Repr

/-- ProjectCreateOptions.valid (projects.go): a nil or empty Name is
ErrRequiredName, a Name that is not a valid string ID is ErrInvalidName. -/
def ProjectCreateOptions.valid (o : ProjectCreateOptions) : Option ApiError :=
  if !validString o.Name then some ApiError.ErrRequiredName
  else if !validStringID o.Name then some ApiError.ErrInvalidName
  else none

/-- ProjectUpdateOptions.valid (projects.go): only a non-nil Name that is
not a valid string ID is rejected, with ErrInvalidName. -/
def ProjectUpdateOptions.valid (o : ProjectUpdateOptions) : Option ApiError :=
  if o.Name.isSome && !validStringID o.Name then some ApiError.ErrInvalidName
  else none

/-- projects.Create (projects.go): validate the organization, then the
options, then issue one POST request.  The HTTP layer is the environment
`doReq`; the first component records the requests issued. -/
def projects.Create (doReq : Request → Except ApiError Project)
    (organization : String) (options : ProjectCreateOptions) :
    List Request × Except ApiError Project :=
  if !validStringID (some organization) then
    ([], Except.error ApiError.ErrInvalidOrg)
  else
    match options.valid with
    | some e => ([], Except.error e)
    | none =>
      let u := "organizations/" ++ queryEscape organization ++ "/projects"
      let req : Request := { method := "POST", path := u }
      ([req], doReq req)

/-- projects.Read (projects.go): validate the project ID, then issue one
GET request. -/
def projects.Read (doReq : Request → Except ApiError Project)
    (ProjectID : String) : List Request × Except ApiError Project :=
  if !validStringID (some ProjectID) then
    ([], Except.error ApiError.ErrInvalidProjectID)
  else
    let u := "projects/" ++ queryEscape ProjectID
    let req : Request := { method := "GET", path := u }
    ([req], doReq req)

/-- projects.Update (projects.go): validate the project ID, then the
options, then issue one PATCH request. -/
def projects.Update (doReq : Request → Except ApiError Project)
    (ProjectID : String) (options : ProjectUpdateOptions) :
    List Request × Except ApiError Project :=
  if !validStringID (some ProjectID) then
    ([], Except.error ApiError.ErrInvalidProjectID)
  else
    match options.valid with
    | some e => ([], Except.error e)
    | none =>
      let u := "projects/" ++ queryEscape ProjectID
      let req : Request := { method := "PATCH", path := u }
      ([req], doReq req)

/-- projects.Delete (projects.go): validate the project ID, then issue one
DELETE request; the environment returns the request error, if any. -/
def projects.Delete (doReq : Request → Option ApiError)
    (ProjectID : String) : List Request × Option ApiError :=
  if !validStringID (some ProjectID) then
    ([], some ApiError.ErrInvalidProjectID)
  else
    let u := "projects/" ++ queryEscape ProjectID
    let req : Request := { method := "DELETE", path := u }
    ([req], doReq req)

/-! ## Helper lemmas about takeWhile, dropWhile and join -/

theorem takeWhile_append_all {α : Type} {p : α → Bool} :
    ∀ {l1 : List α} (l2 : List α), (∀ a ∈ l1, p a = true) →
      (l1 ++ l2).takeWhile p = l1 ++ l2.takeWhile p := by
  intro l1
  induction l1 with
  | nil => intro l2 _; rfl
  | cons x xs ih =>
    intro l2 h
    have hx : p x = true := h x (List.mem_cons_self x xs)
    simp only [List.cons_append, List.takeWhile_cons, hx, if_true]
    have := ih l2 (fun a ha => h a (List.mem_cons_of_mem x ha))
    simp [this]

theorem takeWhile_append_stop {α : Type} {p : α → Bool} :
    ∀ {l1 : List α} (l2 : List α), (∃ a ∈ l1, p a = false) →
      (l1 ++ l2).takeWhile p = l1.takeWhile p := by
  intro l1
  induction l1 with
  | nil => intro l2 h; rcases h with ⟨a, ha, _⟩; cases ha
  | cons x xs ih =>
    intro l2 h
    by_cases hx : p x = true
    · simp only [List.cons_append, List.takeWhile_cons, hx, if_true]
      rcases h with ⟨a, ha, hpa⟩
      rcases List.mem_cons.mp ha with rfl | ha2
      · rw [hx] at hpa; cases hpa
      · rw [ih l2 ⟨a, ha2, hpa⟩]
    · have hx2 : p x = false := Bool.eq_false_iff.mpr hx
      simp [List.takeWhile_cons, hx2]

theorem dropWhile_append_all {α : Type} {p : α → Bool} :
    ∀ {l1 : List α} (l2 : List α), (∀ a ∈ l1, p a = true) →
      (l1 ++ l2).dropWhile p = l2.dropWhile p := by
  intro l1
  induction l1 with
  | nil => intro l2 _; rfl
  | cons x xs ih =>
    intro l2 h
    have hx : p x = true := h x (List.mem_cons_self x xs)
    simp only [List.cons_append, List.dropWhile_cons, hx, if_true]
    exact ih l2 (fun a ha => h a (List.mem_cons_of_mem x ha))

theorem dropWhile_append_stop {α : Type} {p : α → Bool} :
    ∀ {l1 : List α} (l2 : List α), (∃ a ∈ l1, p a = false) →
      (l1 ++ l2).dropWhile p = l1.dropWhile p ++ l2 := by
  intro l1
  induction l1 with
  | nil => intro l2 h; rcases h with ⟨a, ha, _⟩; cases ha
  | cons x xs ih =>
    intro l2 h
    by_cases hx : p x = true
    · simp only [List.cons_append, List.dropWhile_cons, hx, if_true]
      rcases h with ⟨a, ha, hpa⟩
      rcases List.mem_cons.mp ha with rfl | ha2
      · rw [hx] at hpa; cases hpa
      · rw [ih l2 ⟨a, ha2, hpa⟩]
    · have hx2 : p x = false := Bool.eq_false_iff.mpr hx
      simp [List.dropWhile_cons, hx2]

theorem join_all_nil {α : Type} :
    ∀ {cs : List (List α)}, (∀ x ∈ cs, x = []) → cs.flatten = [] := by
  intro cs
  induction cs with
  | nil => intro _; rfl
  | cons c cs ih =>
    intro h
    have hc : c = [] := h c (List.mem_cons_self c cs)
    simp [List.flatten, hc, ih (fun x hx => h x (List.mem_cons_of_mem c hx))]

/-- Membership in a list expressed through the boolean bne predicates used
by the framer. -/
theorem bne_three_of_mem {b : Nat} {l : List Nat} (h3 : ¬ 3 ∈ l) (hb : b ∈ l) :
    (b != 3) = true := by
  have hne : b ≠ 3 := fun h => h3 (h ▸ hb)
  simpa [bne_iff_ne] using hne

theorem bne_two_of_mem {b : Nat} {l : List Nat} (h2 : ¬ 2 ∈ l) (hb : b ∈ l) :
    (b != 2) = true := by
  have hne : b ≠ 2 := fun h => h2 (h ▸ hb)
  simpa [bne_iff_ne] using hne

/-! ## Framer lemmas -/

theorem contains_eq_mem_nat (l : List Nat) (a : Nat) :
    l.contains a = decide (a ∈ l) := by
  simp [List.contains]

theorem runFramer_done (cs : List (List Nat)) :
    runFramer FramerState.done cs = (FramerState.done, []) := by
  induction cs with
  | nil => rfl
  | cons c cs ih => simp [runFramer, process, ih]

theorem runFramer_passThrough (cs : List (List Nat)) :
    runFramer FramerState.passThrough cs = (FramerState.passThrough, cs.flatten) := by
  induction cs with
  | nil => rfl
  | cons c cs ih => simp [runFramer, process, ih]

theorem process_start_framed {c : List Nat} (h2 : 2 ∈ c) :
    process FramerState.start c = scanBody ((c.dropWhile (fun b => b != 2)).tail) := by
  have hne : ¬ (c.isEmpty = true) := by
    cases c with
    | nil => cases h2
    | cons x xs => simp
  have hco : c.contains 2 = true := by
    rw [contains_eq_mem_nat]; exact decide_eq_true h2
  rw [process, if_neg hne, if_pos hco]

theorem process_start_pass {c : List Nat} (hc : c ≠ []) (h2 : ¬ 2 ∈ c) :
    process FramerState.start c = (FramerState.passThrough, c) := by
  have hne : ¬ (c.isEmpty = true) := by
    cases c with
    | nil => exact absurd rfl hc
    | cons x xs => simp
  have hco : ¬ (c.contains 2 = true) := by
    rw [contains_eq_mem_nat]; simp [h2]
  rw [process, if_neg hne, if_neg hco]

theorem scanBody_eq (c : List Nat) :
    scanBody c = (if 3 ∈ c then FramerState.done else FramerState.inBody,
      c.takeWhile (fun b => b != 3)) := by
  by_cases h : 3 ∈ c
  · have hco : c.contains 3 = true := by
      rw [contains_eq_mem_nat]; exact decide_eq_true h
    rw [scanBody, if_pos hco, if_pos h]
  · have hco : ¬ (c.contains 3 = true) := by
      rw [contains_eq_mem_nat]; simp [h]
    have ht : c.takeWhile (fun b => b != 3) = c :=
      List.takeWhile_eq_self_iff.mpr (fun x hx => bne_three_of_mem h hx)
    rw [scanBody, if_neg hco, if_neg h, ht]

theorem runFramer_cons (fs : FramerState) (c : List Nat) (cs : List (List Nat)) :
    runFramer fs (c :: cs) = ((runFramer (process fs c).1 cs).1,
      (process fs c).2 ++ (runFramer (process fs c).1 cs).2) := rfl

theorem runFramer_inBody_eq (cs : List (List Nat)) :
    runFramer FramerState.inBody cs =
      (if 3 ∈ cs.flatten then FramerState.done else FramerState.inBody,
        cs.flatten.takeWhile (fun b => b != 3)) := by
  induction cs with
  | nil => simp [runFramer]
  | cons c cs ih =>
    have hpr : process FramerState.inBody c = scanBody c := rfl
    rw [runFramer_cons, hpr, scanBody_eq]
    by_cases h : 3 ∈ c
    · have hmem : 3 ∈ (c :: cs).flatten := by
        rw [List.flatten_cons]; exact List.mem_append_left _ h
      have hstop : ((c :: cs).flatten).takeWhile (fun b => b != 3)
          = c.takeWhile (fun b => b != 3) := by
        rw [List.flatten_cons]
        exact takeWhile_append_stop _ ⟨3, h, by simp⟩
      rw [if_pos h, if_pos hmem, hstop]
      simp [runFramer_done]
    · have hmem : (3 ∈ (c :: cs).flatten) ↔ (3 ∈ cs.flatten) := by
        rw [List.flatten_cons, List.mem_append]
        exact ⟨fun hor => hor.resolve_left h, Or.inr⟩
      have happ : ((c :: cs).flatten).takeWhile (fun b => b != 3)
          = c ++ (cs.flatten).takeWhile (fun b => b != 3) := by
        rw [List.flatten_cons]
        exact takeWhile_append_all _ (fun a ha => bne_three_of_mem h ha)
      have ht : c.takeWhile (fun b => b != 3) = c :=
        List.takeWhile_eq_self_iff.mpr (fun x hx => bne_three_of_mem h hx)
      rw [if_neg h, ht, ih, happ]
      by_cases h3 : 3 ∈ cs.flatten
      · rw [if_pos h3, if_pos (hmem.mpr h3)]
      · rw [if_neg h3, if_neg (fun hx => h3 (hmem.mp hx))]

theorem runFramer_start_allNil (pre : List (List Nat))
    (hpre : ∀ x ∈ pre, x = ([] : List Nat)) :
    runFramer FramerState.start pre = (FramerState.start, []) := by
  induction pre with
  | nil => rfl
  | cons c cs ih =>
    have hc : c = [] := hpre c (List.mem_cons_self c cs)
    subst hc
    rw [runFramer_cons]
    have h1 : process FramerState.start [] = (FramerState.start, []) := rfl
    rw [h1, ih (fun x hx => hpre x (List.mem_cons_of_mem _ hx))]
    rfl

theorem runFramer_start_framed (pre : List (List Nat)) (c : List Nat)
    (rest : List (List Nat)) (hpre : ∀ x ∈ pre, x = ([] : List Nat)) (h2 : 2 ∈ c) :
    runFramer FramerState.start (pre ++ c :: rest)
      = runFramer FramerState.inBody (((c.dropWhile (fun b => b != 2)).tail) :: rest) := by
  induction pre with
  | nil =>
    rw [List.nil_append, runFramer_cons, runFramer_cons, process_start_framed h2]
    rfl
  | cons x xs ih =>
    have hx : x = [] := hpre x (List.mem_cons_self x xs)
    subst hx
    rw [List.cons_append, runFramer_cons]
    have h1 : process FramerState.start [] = (FramerState.start, []) := rfl
    rw [h1, ih (fun y hy => hpre y (List.mem_cons_of_mem _ hy))]
    rw [List.nil_append]

theorem runFramer_start_pass (pre : List (List Nat)) (c : List Nat)
    (rest : List (List Nat)) (hpre : ∀ x ∈ pre, x = ([] : List Nat))
    (hc : c ≠ []) (h2 : ¬ 2 ∈ c) :
    runFramer FramerState.start (pre ++ c :: rest)
      = (FramerState.passThrough, c ++ rest.flatten) := by
  induction pre with
  | nil =>
    rw [List.nil_append, runFramer_cons, process_start_pass hc h2]
    rw [runFramer_passThrough]
  | cons x xs ih =>
    have hx : x = [] := hpre x (List.mem_cons_self x xs)
    subst hx
    rw [List.cons_append, runFramer_cons]
    have h1 : process FramerState.start [] = (FramerState.start, []) := rfl
    rw [h1, ih (fun y hy => hpre y (List.mem_cons_of_mem _ hy))]
    rw [List.nil_append]

theorem processAll_no2 (cs : List (List Nat)) (h : ∀ c ∈ cs, ¬ 2 ∈ c) :
    processAll FramerState.start cs = cs.flatten := by
  induction cs with
  | nil => rfl
  | cons c cs ih =>
    by_cases hc : c = []
    · subst hc
      unfold processAll at ih ⊢
      rw [runFramer_cons]
      have h1 : process FramerState.start [] = (FramerState.start, []) := rfl
      rw [h1]
      rw [List.flatten_cons, List.nil_append]
      exact ih (fun x hx => h x (List.mem_cons_of_mem _ hx))
    · have hp := runFramer_start_pass [] c cs (by intro x hx; cases hx)
        hc (h c (List.mem_cons_self c cs))
      rw [List.nil_append] at hp
      unfold processAll
      rw [hp, List.flatten_cons]

/-! ## Poll loop lemmas -/

theorem cycle_progressed {chunks : Nat → List Nat} {oracle : Nat → Except Unit Bool}
    {sched : Nat → Bool} {s : LoopState} {p : List Nat} {s2 : LoopState}
    (h : cycle chunks oracle sched s = CycleResult.progressed p s2) :
    p = (process s.fs (chunks (s.reads + 1))).2 ∧ ¬ p = [] ∧
      s2.fs = (process s.fs (chunks (s.reads + 1))).1 ∧ s2.reads = s.reads + 1 ∧
      s2.output = s.output ++ p ∧ s2.checkLog = s.checkLog := by
  simp only [cycle] at h
  split at h
  · split at h
    · split at h <;> cases h
    · cases h
  · cases h
    refine ⟨rfl, by assumption, rfl, rfl, rfl, rfl⟩

theorem cycle_idle {chunks : Nat → List Nat} {oracle : Nat → Except Unit Bool}
    {sched : Nat → Bool} {s : LoopState} {s2 : LoopState}
    (h : cycle chunks oracle sched s = CycleResult.idle s2) :
    (process s.fs (chunks (s.reads + 1))).2 = [] ∧
      s2.fs = (process s.fs (chunks (s.reads + 1))).1 ∧ s2.reads = s.reads + 1 ∧
      s2.output = s.output ∧
      (s2.checkLog = s.checkLog ∨
        (s2.checkLog = s.checkLog ++ [s.reads + 1] ∧
          oracle (s.reads + 1) = Except.ok false)) := by
  simp only [cycle] at h
  split at h
  case isTrue hp =>
    split at h
    · split at h
      · cases h
      · cases h
      · cases h
        refine ⟨hp, rfl, rfl, by simp [hp], Or.inr ⟨rfl, by assumption⟩⟩
    · cases h
      refine ⟨hp, rfl, rfl, by simp [hp], Or.inl rfl⟩
  case isFalse hp => cases h

theorem cycle_eofR {chunks : Nat → List Nat} {oracle : Nat → Except Unit Bool}
    {sched : Nat → Bool} {s : LoopState} {s2 : LoopState}
    (h : cycle chunks oracle sched s = CycleResult.eofR s2) :
    (process s.fs (chunks (s.reads + 1))).2 = [] ∧
      s2.fs = (process s.fs (chunks (s.reads + 1))).1 ∧ s2.reads = s.reads + 1 ∧
      s2.output = s.output ∧ s2.checkLog = s.checkLog ++ [s.reads + 1] ∧
      oracle (s.reads + 1) = Except.ok true ∧
      ((process s.fs (chunks (s.reads + 1))).1 = FramerState.done ∨
        sched (s.reads + 1) = true) := by
  simp only [cycle] at h
  split at h
  case isTrue hp =>
    split at h
    case isTrue hcond =>
      split at h
      · cases h
      · cases h
        refine ⟨hp, rfl, rfl, by simp [hp], rfl, by assumption, hcond⟩
      · cases h
    case isFalse hcond => cases h
  case isFalse hp => cases h

theorem cycle_failedR {chunks : Nat → List Nat} {oracle : Nat → Except Unit Bool}
    {sched : Nat → Bool} {s : LoopState} {s2 : LoopState}
    (h : cycle chunks oracle sched s = CycleResult.failedR s2) :
    (process s.fs (chunks (s.reads + 1))).2 = [] ∧
      s2.fs = (process s.fs (chunks (s.reads + 1))).1 ∧ s2.reads = s.reads + 1 ∧
      s2.output = s.output ∧ s2.checkLog = s.checkLog ++ [s.reads + 1] ∧
      oracle (s.reads + 1) = Except.error () := by
  simp only [cycle] at h
  split at h
  case isTrue hp =>
    split at h
    · split at h
      case h_1 e he =>
        cases h
        refine ⟨hp, rfl, rfl, by simp [hp], rfl, by rw [he]⟩
      · cases h
      · cases h
    · cases h
  case isFalse hp => cases h

theorem runFramer_append (fs : FramerState) (l1 l2 : List (List Nat)) :
    runFramer fs (l1 ++ l2)
      = ((runFramer (runFramer fs l1).1 l2).1,
         (runFramer fs l1).2 ++ (runFramer (runFramer fs l1).1 l2).2) := by
  induction l1 generalizing fs with
  | nil => simp [runFramer]
  | cons c cs ih =>
    rw [List.cons_append, runFramer_cons, ih, runFramer_cons]
    simp [List.append_assoc]

theorem runFramer_singleton (fs : FramerState) (c : List Nat) :
    runFramer fs [c] = ((process fs c).1, (process fs c).2) := by
  rw [runFramer_cons]
  simp [runFramer]

theorem fetched_succ (chunks : Nat → List Nat) (n : Nat) :
    fetched chunks (n + 1) = fetched chunks n ++ [chunks (n + 1)] := by
  unfold fetched
  rw [List.range'_1_concat]
  rw [Nat.add_comm 1 n]
  simp

/-- The loop invariant: the session state agrees with running the framer
over the chunks fetched so far. -/
def okSt (chunks : Nat → List Nat) (s : LoopState) : Prop :=
  s.fs = (runFramer FramerState.start (fetched chunks s.reads)).1 ∧
    s.output = (runFramer FramerState.start (fetched chunks s.reads)).2

theorem okSt_initLS (chunks : Nat → List Nat) : okSt chunks initLS :=
  ⟨rfl, rfl⟩

theorem okSt_next {chunks : Nat → List Nat} {s s2 : LoopState}
    (hs : okSt chunks s)
    (hfs : s2.fs = (process s.fs (chunks (s.reads + 1))).1)
    (hr : s2.reads = s.reads + 1)
    (ho : s2.output = s.output ++ (process s.fs (chunks (s.reads + 1))).2) :
    okSt chunks s2 := by
  obtain ⟨h1, h2⟩ := hs
  constructor
  · rw [hfs, hr, fetched_succ, runFramer_append, runFramer_singleton, h1]
  · rw [ho, hr, fetched_succ, runFramer_append, runFramer_singleton, h2, h1]

theorem drive_okSt {chunks : Nat → List Nat} {oracle : Nat → Except Unit Bool}
    {sched : Nat → Bool} :
    ∀ (fuel : Nat) (s : LoopState) (d : DriveDone) (f : LoopState),
      drive chunks oracle sched fuel s = some (d, f) → okSt chunks s →
        okSt chunks f := by
  intro fuel
  induction fuel with
  | zero => intro s d f h _; cases h
  | succ fuel ih =>
    intro s d f h hs
    unfold drive at h
    split at h
    case h_1 p s2 hc =>
      obtain ⟨hp, hne, hfs, hr, ho, hcl⟩ := cycle_progressed hc
      exact ih s2 d f h (okSt_next hs hfs hr (by rw [ho, hp]))
    case h_2 s2 hc =>
      obtain ⟨hp, hfs, hr, ho, _⟩ := cycle_idle hc
      exact ih s2 d f h (okSt_next hs hfs hr (by rw [ho, hp, List.append_nil]))
    case h_3 s2 hc =>
      obtain ⟨hp, hfs, hr, ho, _⟩ := cycle_eofR hc
      simp only [Option.some.injEq, Prod.mk.injEq] at h
      rw [← h.2]
      exact okSt_next hs hfs hr (by rw [ho, hp, List.append_nil])
    case h_4 s2 hc =>
      obtain ⟨hp, hfs, hr, ho, _⟩ := cycle_failedR hc
      simp only [Option.some.injEq, Prod.mk.injEq] at h
      rw [← h.2]
      exact okSt_next hs hfs hr (by rw [ho, hp, List.append_nil])

theorem drive_eof_checks {chunks : Nat → List Nat} {oracle : Nat → Except Unit Bool}
    {sched : Nat → Bool} :
    ∀ (fuel : Nat) (s : LoopState) (f : LoopState),
      drive chunks oracle sched fuel s = some (DriveDone.eofD, f) →
      (∀ r ∈ s.checkLog, oracle r = Except.ok false) →
      oracle f.reads = Except.ok true ∧
        (∀ r ∈ f.checkLog, r = f.reads ∨ oracle r = Except.ok false) := by
  intro fuel
  induction fuel with
  | zero => intro s f h _; cases h
  | succ fuel ih =>
    intro s f h hprev
    unfold drive at h
    split at h
    case h_1 p s2 hc =>
      obtain ⟨_, _, _, _, _, hcl⟩ := cycle_progressed hc
      exact ih s2 f h (by rw [hcl]; exact hprev)
    case h_2 s2 hc =>
      obtain ⟨_, _, _, _, hcl⟩ := cycle_idle hc
      refine ih s2 f h ?_
      rcases hcl with hcl | ⟨hcl, hor⟩
      · rw [hcl]; exact hprev
      · rw [hcl]
        intro r hr
        rcases List.mem_append.mp hr with hr1 | hr2
        · exact hprev r hr1
        · rw [List.mem_singleton.mp hr2]; exact hor
    case h_3 s2 hc =>
      obtain ⟨_, _, hr, _, hcl, hor, _⟩ := cycle_eofR hc
      simp only [Option.some.injEq, Prod.mk.injEq, true_and] at h
      subst h
      constructor
      · rw [hr]; exact hor
      · intro x hx
        rw [hcl] at hx
        rcases List.mem_append.mp hx with hx1 | hx2
        · exact Or.inr (hprev x hx1)
        · exact Or.inl (by rw [List.mem_singleton.mp hx2, hr])
    case h_4 s2 hc =>
      simp at h

theorem drive_last_oracle {chunks : Nat → List Nat} {oracle : Nat → Except Unit Bool}
    {sched : Nat → Bool} :
    ∀ (fuel : Nat) (s : LoopState) (d : DriveDone) (f : LoopState),
      drive chunks oracle sched fuel s = some (d, f) →
      (d = DriveDone.eofD → oracle f.reads = Except.ok true) ∧
        (d = DriveDone.failedD → oracle f.reads = Except.error ()) := by
  intro fuel
  induction fuel with
  | zero => intro s d f h; cases h
  | succ fuel ih =>
    intro s d f h
    unfold drive at h
    split at h
    case h_1 p s2 hc => exact ih s2 d f h
    case h_2 s2 hc => exact ih s2 d f h
    case h_3 s2 hc =>
      obtain ⟨_, _, hr, _, _, hor, _⟩ := cycle_eofR hc
      simp only [Option.some.injEq, Prod.mk.injEq] at h
      rw [← h.1, ← h.2]
      refine ⟨fun _ => ?_, fun hd => ?_⟩
      · rw [hr]; exact hor
      · cases hd
    case h_4 s2 hc =>
      obtain ⟨_, _, hr, _, _, hor⟩ := cycle_failedR hc
      simp only [Option.some.injEq, Prod.mk.injEq] at h
      rw [← h.1, ← h.2]
      refine ⟨fun hd => ?_, fun _ => ?_⟩
      · cases hd
      · rw [hr]; exact hor

theorem drive_done_stays {chunks : Nat → List Nat} {oracle : Nat → Except Unit Bool}
    {sched : Nat → Bool} :
    ∀ (fuel : Nat) (s : LoopState) (d : DriveDone) (f : LoopState),
      drive chunks oracle sched fuel s = some (d, f) → s.fs = FramerState.done →
      f.output = s.output ∧ f.fs = FramerState.done := by
  intro fuel
  induction fuel with
  | zero => intro s d f h _; cases h
  | succ fuel ih =>
    intro s d f h hdone
    have hproc : process s.fs (chunks (s.reads + 1)) = (FramerState.done, []) := by
      rw [hdone]; rfl
    unfold drive at h
    split at h
    case h_1 p s2 hc =>
      obtain ⟨hp, hne, _, _, _, _⟩ := cycle_progressed hc
      rw [hproc] at hp
      exact absurd hp hne
    case h_2 s2 hc =>
      obtain ⟨_, hfs, _, ho, _⟩ := cycle_idle hc
      rw [hproc] at hfs
      have := ih s2 d f h hfs
      rw [ho] at this
      exact this
    case h_3 s2 hc =>
      obtain ⟨_, hfs, _, ho, _⟩ := cycle_eofR hc
      rw [hproc] at hfs
      simp only [Option.some.injEq, Prod.mk.injEq] at h
      rw [← h.2]
      exact ⟨ho, hfs⟩
    case h_4 s2 hc =>
      obtain ⟨_, hfs, _, ho, _⟩ := cycle_failedR hc
      rw [hproc] at hfs
      simp only [Option.some.injEq, Prod.mk.injEq] at h
      rw [← h.2]
      exact ⟨ho, hfs⟩

/-! ## Claim theorems -/

/-- C8: every consumer-facing read call returns exactly one of three mutually
exclusive outcomes: at least one payload byte with the ok status, an
end-of-stream indication with no bytes, or the recorded terminal error with
no bytes; never an ambiguous or partial combination. -/
theorem readCall_trichotomy (chunks : Nat → List Nat) (oracle : Nat → Except Unit Bool)
    (sched : Nat → Bool) :
    ∀ (fuel : Nat) (s : LoopState) (p : List Nat) (st : ReadStatus) (s2 : LoopState),
      readCall chunks oracle sched fuel s = some (p, st, s2) →
      (st = ReadStatus.okR ∧ ¬ p = []) ∨ (st = ReadStatus.eofS ∧ p = []) ∨
        (st = ReadStatus.failedS ∧ p = []) := by
  intro fuel
  induction fuel with
  | zero => intro s p st s2 h; cases h
  | succ fuel ih =>
    intro s p st s2 h
    unfold readCall at h
    split at h
    case h_1 q s3 hc =>
      obtain ⟨_, hne, _⟩ := cycle_progressed hc
      simp only [Option.some.injEq, Prod.mk.injEq] at h
      refine Or.inl ⟨h.2.1.symm, ?_⟩
      rw [← h.1]
      exact hne
    case h_2 s3 hc => exact ih s3 p st s2 h
    case h_3 s3 hc =>
      simp only [Option.some.injEq, Prod.mk.injEq] at h
      exact Or.inr (Or.inl ⟨h.2.1.symm, h.1.symm⟩)
    case h_4 s3 hc =>
      simp only [Option.some.injEq, Prod.mk.injEq] at h
      exact Or.inr (Or.inr ⟨h.2.1.symm, h.1.symm⟩)

/-- Witness for C8 at a concrete run: the first read call on a stream whose
first chunk is START, one byte, END returns that byte with the ok status. -/
theorem readCall_trichotomy_witness :
    (ReadStatus.okR = ReadStatus.okR ∧ ¬ ([84] : List Nat) = []) ∨
      (ReadStatus.okR = ReadStatus.eofS ∧ ([84] : List Nat) = []) ∨
      (ReadStatus.okR = ReadStatus.failedS ∧ ([84] : List Nat) = []) :=
  readCall_trichotomy (fun i => if i = 1 then [2, 84, 3] else [])
    (fun _ => Except.ok true) (fun _ => false) 5 initLS [84] ReadStatus.okR
    ⟨FramerState.done, 1, [84], []⟩ rfl

/-- C9: every Projects operation validates its string-ID inputs first and,
on invalid input, returns the corresponding sentinel error with no HTTP
request issued. -/
theorem projects_validate_first
    (doReq : Request → Except ApiError Project) (doDel : Request → Option ApiError)
    (organization ProjectID : String)
    (co : ProjectCreateOptions) (uo : ProjectUpdateOptions) :
    (validStringID (some organization) = false →
      projects.Create doReq organization co = ([], Except.error ApiError.ErrInvalidOrg)) ∧
    (∀ e, validStringID (some organization) = true → co.valid = some e →
      projects.Create doReq organization co = ([], Except.error e)) ∧
    (validStringID (some ProjectID) = false →
      projects.Read doReq ProjectID = ([], Except.error ApiError.ErrInvalidProjectID)) ∧
    (validStringID (some ProjectID) = false →
      projects.Update doReq ProjectID uo = ([], Except.error ApiError.ErrInvalidProjectID)) ∧
    (∀ e, validStringID (some ProjectID) = true → uo.valid = some e →
      projects.Update doReq ProjectID uo = ([], Except.error e)) ∧
    (validStringID (some ProjectID) = false →
      projects.Delete doDel ProjectID = ([], some ApiError.ErrInvalidProjectID)) := by
  refine ⟨?_, ?_, ?_, ?_, ?_, ?_⟩
  · intro h; simp [projects.Create, h]
  · intro e h1 h2; simp [projects.Create, h1, h2]
  · intro h; simp [projects.Read, h]
  · intro h; simp [projects.Update, h]
  · intro e h1 h2; simp [projects.Update, h1, h2]
  · intro h; simp [projects.Delete, h]

/-- Witness for C9 at concrete invalid inputs (a space makes a string an
invalid string ID). -/
theorem projects_validate_first_witness :
    projects.Create (fun _ => Except.error ApiError.ErrInvalidOrg) ("bad org")
        ⟨some ("ok")⟩ = ([], Except.error ApiError.ErrInvalidOrg) ∧
    projects.Create (fun _ => Except.error ApiError.ErrInvalidOrg) ("okorg")
        ⟨none⟩ = ([], Except.error ApiError.ErrRequiredName) ∧
    projects.Read (fun _ => Except.error ApiError.ErrInvalidOrg) ("bad id")
        = ([], Except.error ApiError.ErrInvalidProjectID) ∧
    projects.Update (fun _ => Except.error ApiError.ErrInvalidOrg) ("bad id")
        ⟨none⟩ = ([], Except.error ApiError.ErrInvalidProjectID) ∧
    projects.Update (fun _ => Except.error ApiError.ErrInvalidOrg) ("okid")
        ⟨some ("bad name")⟩ = ([], Except.error ApiError.ErrInvalidName) ∧
    projects.Delete (fun _ => none) ("bad id")
        = ([], some ApiError.ErrInvalidProjectID) :=
  ⟨(projects_validate_first (fun _ => Except.error ApiError.ErrInvalidOrg) (fun _ => none)
      ("bad org") ("x") ⟨some ("ok")⟩ ⟨none⟩).1 (by decide),
   (projects_validate_first (fun _ => Except.error ApiError.ErrInvalidOrg) (fun _ => none)
      ("okorg") ("x") ⟨none⟩ ⟨none⟩).2.1 ApiError.ErrRequiredName (by decide) (by decide),
   (projects_validate_first (fun _ => Except.error ApiError.ErrInvalidOrg) (fun _ => none)
      ("x") ("bad id") ⟨none⟩ ⟨none⟩).2.2.1 (by decide),
   (projects_validate_first (fun _ => Except.error ApiError.ErrInvalidOrg) (fun _ => none)
      ("x") ("bad id") ⟨none⟩ ⟨none⟩).2.2.2.1 (by decide),
   (projects_validate_first (fun _ => Except.error ApiError.ErrInvalidOrg) (fun _ => none)
      ("x") ("okid") ⟨none⟩ ⟨some ("bad name")⟩).2.2.2.2.1 ApiError.ErrInvalidName
      (by decide) (by decide),
   (projects_validate_first (fun _ => Except.error ApiError.ErrInvalidOrg) (fun _ => none)
      ("x") ("bad id") ⟨none⟩ ⟨none⟩).2.2.2.2.2 (by decide)⟩

/-- C10: Name is mandatory only on create: ProjectCreateOptions.valid rejects
a nil or empty Name with ErrRequiredName and a non-empty invalid Name with
ErrInvalidName, while ProjectUpdateOptions.valid accepts a nil Name and
rejects exactly the non-nil Names that are not valid string IDs. -/
theorem project_name_required_only_on_create
    (co : ProjectCreateOptions) (uo : ProjectUpdateOptions) :
    (co.Name = none → co.valid = some ApiError.ErrRequiredName) ∧
    (co.Name = some ("") → co.valid = some ApiError.ErrRequiredName) ∧
    (validString co.Name = true → validStringID co.Name = false →
      co.valid = some ApiError.ErrInvalidName) ∧
    (validStringID co.Name = true → co.valid = none) ∧
    (uo.Name = none → uo.valid = none) ∧
    (validStringID uo.Name = true → uo.valid = none) ∧
    (uo.Name ≠ none → validStringID uo.Name = false →
      uo.valid = some ApiError.ErrInvalidName) := by
  refine ⟨?_, ?_, ?_, ?_, ?_, ?_, ?_⟩
  · intro h; simp [ProjectCreateOptions.valid, h, validString]
  · intro h; simp [ProjectCreateOptions.valid, h, validString]
  · intro h1 h2; simp [ProjectCreateOptions.valid, h1, h2]
  · intro h
    have hs : validString co.Name = true := by
      cases hn : co.Name with
      | none => rw [hn] at h; cases h
      | some s =>
        rw [hn] at h
        unfold validStringID at h
        unfold validString
        exact (Bool.and_eq_true _ _).mp h |>.1
    simp [ProjectCreateOptions.valid, hs, h]
  · intro h; simp [ProjectUpdateOptions.valid, h]
  · intro h; simp [ProjectUpdateOptions.valid, h]
  · intro h1 h2
    have hs : uo.Name.isSome = true := Option.isSome_iff_ne_none.mpr h1
    simp [ProjectUpdateOptions.valid, hs, h2]

/-- Witness for C10 at concrete options. -/
theorem project_name_required_only_on_create_witness :
    (⟨none⟩ : ProjectCreateOptions).valid = some ApiError.ErrRequiredName ∧
    (⟨some ("bad name")⟩ : ProjectCreateOptions).valid = some ApiError.ErrInvalidName ∧
    (⟨some ("good-name")⟩ : ProjectCreateOptions).valid = none ∧
    (⟨none⟩ : ProjectUpdateOptions).valid = none ∧
    (⟨some ("good-name")⟩ : ProjectUpdateOptions).valid = none ∧
    (⟨some ("bad name")⟩ : ProjectUpdateOptions).valid = some ApiError.ErrInvalidName :=
  ⟨(project_name_required_only_on_create ⟨none⟩ ⟨none⟩).1 rfl,
   (project_name_required_only_on_create ⟨some ("bad name")⟩ ⟨none⟩).2.2.1
      (by decide) (by decide),
   (project_name_required_only_on_create ⟨some ("good-name")⟩ ⟨none⟩).2.2.2.1 (by decide),
   (project_name_required_only_on_create ⟨none⟩ ⟨none⟩).2.2.2.2.1 rfl,
   (project_name_required_only_on_create ⟨none⟩ ⟨some ("good-name")⟩).2.2.2.2.2.1
      (by decide),
   (project_name_required_only_on_create ⟨none⟩ ⟨some ("bad name")⟩).2.2.2.2.2.2
      (by decide) (by decide)⟩

/-- C1 (amended): for a chunk sequence that contains exactly one START byte
and exactly one END byte, where the START lies in the first non-empty chunk
and the END comes after it, the total payload emitted by the framer equals
exactly the bytes strictly between the two markers, in order, no matter how
the bytes are split across chunk boundaries. -/
theorem framer_payload_between_markers
    (chunksL pre rest : List (List Nat)) (c a b d : List Nat)
    (hch : chunksL = pre ++ c :: rest)
    (hpre : ∀ x ∈ pre, x = ([] : List Nat))
    (h2c : 2 ∈ c)
    (hj : chunksL.flatten = a ++ 2 :: (b ++ 3 :: d))
    (hc2 : chunksL.flatten.count 2 = 1)
    (hc3 : chunksL.flatten.count 3 = 1) :
    processAll FramerState.start chunksL = b := by
  subst hch
  have hjoin : (pre ++ c :: rest).flatten = c ++ rest.flatten := by
    rw [List.flatten_append, List.flatten_cons, join_all_nil hpre, List.nil_append]
  -- marker-freeness of the surrounding segments
  rw [hjoin] at hj hc2 hc3
  have ha2 : ¬ 2 ∈ a := by
    rw [hj] at hc2
    simp [List.count_append, List.count_cons] at hc2
    intro hmem
    have : 1 ≤ a.count 2 := List.one_le_count_iff.mpr hmem
    omega
  have hb3 : ¬ 3 ∈ b := by
    rw [hj] at hc3
    simp [List.count_append, List.count_cons] at hc3
    intro hmem
    have : 1 ≤ b.count 3 := List.one_le_count_iff.mpr hmem
    omega
  -- the framer output in framed mode
  unfold processAll
  rw [runFramer_start_framed pre c rest hpre h2c, runFramer_inBody_eq,
    List.flatten_cons]
  -- identify the remainder after the START marker
  have hdrop : (c.dropWhile (fun x => x != 2)) ++ rest.flatten = 2 :: (b ++ 3 :: d) := by
    have hl : (c ++ rest.flatten).dropWhile (fun x => x != 2)
        = (c.dropWhile (fun x => x != 2)) ++ rest.flatten :=
      dropWhile_append_stop _ ⟨2, h2c, by simp⟩
    have hr : (a ++ 2 :: (b ++ 3 :: d)).dropWhile (fun x => x != 2)
        = 2 :: (b ++ 3 :: d) := by
      rw [dropWhile_append_all _ (fun x hx => bne_two_of_mem ha2 hx)]
      rw [List.dropWhile_cons]
      simp
    rw [← hl, hj, hr]
  have hne : ¬ (c.dropWhile (fun x => x != 2)) = [] := by
    intro hnil
    have := List.dropWhile_eq_nil_iff.mp hnil 2 h2c
    simp at this
  obtain ⟨y, ys, hys⟩ := List.exists_cons_of_ne_nil hne
  rw [hys] at hdrop
  rw [List.cons_append] at hdrop
  have htail : ys ++ rest.flatten = b ++ 3 :: d := (List.cons.injEq _ _ _ _).mp hdrop |>.2
  rw [hys]
  simp only [List.tail_cons]
  rw [htail]
  rw [takeWhile_append_all _ (fun x hx => bne_three_of_mem hb3 hx)]
  rw [List.takeWhile_cons]
  simp

/-- C1 counterexample: the chunk sequence [[7], [2, 5, 3]] contains exactly
one START and one END, the bytes strictly between them are [5], yet the
framer delivers [7, 2, 5, 3]: the marker-free first chunk commits the
stream to pass-through mode, so the claim as stated (for every chunk
sequence with exactly one START and one END) fails. -/
theorem framer_payload_between_markers_cex :
    (([[7], [2, 5, 3]] : List (List Nat)).flatten = [7] ++ 2 :: ([5] ++ 3 :: []) ∧
      ([[7], [2, 5, 3]] : List (List Nat)).flatten.count 2 = 1 ∧
      ([[7], [2, 5, 3]] : List (List Nat)).flatten.count 3 = 1) ∧
    ¬ processAll FramerState.start [[7], [2, 5, 3]] = [5] := by
  refine ⟨⟨rfl, by decide, by decide⟩, by decide⟩

/-- Witness for C1 (amended) at a concrete split: leading empty chunk, noise
before START inside the first non-empty chunk, trailing bytes after END. -/
theorem framer_payload_between_markers_witness :
    processAll FramerState.start [[], [9, 2, 5, 3, 7]] = [5] :=
  framer_payload_between_markers [[], [9, 2, 5, 3, 7]] [[]] [] [9, 2, 5, 3, 7]
    [9] [5] [7] rfl (by decide) (by decide) rfl (by decide) (by decide)

theorem drive_step (chunks : Nat → List Nat) (oracle : Nat → Except Unit Bool)
    (sched : Nat → Bool) (fuel : Nat) (s : LoopState) :
    drive chunks oracle sched (fuel + 1) s =
      match cycle chunks oracle sched s with
      | CycleResult.progressed _ s2 => drive chunks oracle sched fuel s2
      | CycleResult.idle s2 => drive chunks oracle sched fuel s2
      | CycleResult.eofR s2 => some (DriveDone.eofD, s2)
      | CycleResult.failedR s2 => some (DriveDone.failedD, s2) := rfl

/-- C2 (amended): once the END marker has been observed, no further payload
is ever delivered, but fetching continues and the completion oracle is still
consulted: the stream then terminates only through the oracle (a true answer
gives end-of-stream, an oracle error gives the recorded failure). -/
theorem after_end_no_more_payload
    (chunks : Nat → List Nat) (oracle : Nat → Except Unit Bool) (sched : Nat → Bool)
    (fuel : Nat) (s : LoopState) (d : DriveDone) (f : LoopState)
    (hdone : s.fs = FramerState.done)
    (h : drive chunks oracle sched fuel s = some (d, f)) :
    f.output = s.output ∧ f.fs = FramerState.done ∧
      (d = DriveDone.eofD → oracle f.reads = Except.ok true) ∧
      (d = DriveDone.failedD → oracle f.reads = Except.error ()) := by
  obtain ⟨ho, hfs⟩ := drive_done_stays fuel s d f h hdone
  obtain ⟨he, hf⟩ := drive_last_oracle fuel s d f h
  exact ⟨ho, hfs, he, hf⟩

/-- Witness for C2 (amended): from a session whose framer has already seen
END, the terminated run delivers no further payload. -/
theorem after_end_no_more_payload_witness :
    (⟨FramerState.done, 2, [97], [2]⟩ : LoopState).output
      = (⟨FramerState.done, 1, [97], []⟩ : LoopState).output :=
  (after_end_no_more_payload (fun _ => []) (fun _ => Except.ok true) (fun _ => false) 5
    ⟨FramerState.done, 1, [97], []⟩ DriveDone.eofD ⟨FramerState.done, 2, [97], [2]⟩
    rfl rfl).1

/-- C2 counterexample: with one chunk holding START, one byte, END, the very
first cycle observes the END marker (framer state done), yet the terminated
run has issued a second fetch (reads = 2) and a completion check (check log
[2]) after that observation, so the claim that no further fetch or
completion call occurs after END fails. -/
theorem after_end_no_more_fetch_cex :
    cycle (fun i => if i = 1 then [2, 97, 3] else [])
        (fun r => Except.ok (decide (2 ≤ r))) (fun _ => false) initLS
      = CycleResult.progressed [97] ⟨FramerState.done, 1, [97], []⟩ ∧
    drive (fun i => if i = 1 then [2, 97, 3] else [])
        (fun r => Except.ok (decide (2 ≤ r))) (fun _ => false) 10 initLS
      = some (DriveDone.eofD, ⟨FramerState.done, 2, [97], [2]⟩) := ⟨rfl, rfl⟩

/-- C3 (amended): when fetch 1 returns START, the bytes 97 98 99 ("abc"),
END and every other fetch is empty, reading the stream to end-of-stream
yields exactly the bytes 97 98 99, and the completion oracle is consulted
exactly once, on the first progress-less cycle after the end marker closed
the frame (check log [2]); the marker alone does not terminate the stream. -/
theorem single_fetch_framed_stream
    (chunks : Nat → List Nat) (oracle : Nat → Except Unit Bool) (sched : Nat → Bool)
    (h1 : chunks 1 = [2, 97, 98, 99, 3])
    (hrest : ∀ i, ¬ i = 1 → chunks i = [])
    (ho : oracle 2 = Except.ok true) :
    drive chunks oracle sched 10 initLS
      = some (DriveDone.eofD, ⟨FramerState.done, 2, [97, 98, 99], [2]⟩) := by
  have hc1 : cycle chunks oracle sched initLS
      = CycleResult.progressed [97, 98, 99] ⟨FramerState.done, 1, [97, 98, 99], []⟩ := by
    have h1' : chunks (initLS.reads + 1) = [2, 97, 98, 99, 3] := h1
    simp only [cycle, h1']
    rfl
  have hc2 : cycle chunks oracle sched ⟨FramerState.done, 1, [97, 98, 99], []⟩
      = CycleResult.eofR ⟨FramerState.done, 2, [97, 98, 99], [2]⟩ := by
    have h2' : chunks ((⟨FramerState.done, 1, [97, 98, 99], []⟩ : LoopState).reads + 1)
        = [] := hrest 2 (by decide)
    have ho' : oracle ((⟨FramerState.done, 1, [97, 98, 99], []⟩ : LoopState).reads + 1)
        = Except.ok true := ho
    simp only [cycle, h2', ho']
    rfl
  have e1 : drive chunks oracle sched 10 initLS
      = drive chunks oracle sched 9 ⟨FramerState.done, 1, [97, 98, 99], []⟩ := by
    rw [show (10 : Nat) = 9 + 1 from rfl, drive_step, hc1]
  have e2 : drive chunks oracle sched 9 ⟨FramerState.done, 1, [97, 98, 99], []⟩
      = some (DriveDone.eofD, ⟨FramerState.done, 2, [97, 98, 99], [2]⟩) := by
    rw [show (9 : Nat) = 8 + 1 from rfl, drive_step, hc2]
  rw [e1, e2]

/-- Witness for C3 (amended) at a concrete stream and oracle. -/
theorem single_fetch_framed_stream_witness :
    drive (fun i => if i = 1 then [2, 97, 98, 99, 3] else [])
        (fun _ => Except.ok true) (fun _ => false) 10 initLS
      = some (DriveDone.eofD, ⟨FramerState.done, 2, [97, 98, 99], [2]⟩) :=
  single_fetch_framed_stream (fun i => if i = 1 then [2, 97, 98, 99, 3] else [])
    (fun _ => Except.ok true) (fun _ => false) rfl (fun _ hi => if_neg hi) rfl

/-- C3 counterexample: on the single-fetch stream START 97 98 99 END, the
model reaches end-of-stream with exactly those payload bytes, but with a
non-empty check log: the completion oracle is called at fetch 2, so the
claim that the oracle is never called fails. -/
theorem single_fetch_no_oracle_cex :
    drive (fun i => if i = 1 then [2, 97, 98, 99, 3] else [])
        (fun _ => Except.ok true) (fun _ => false) 10 initLS
      = some (DriveDone.eofD, ⟨FramerState.done, 2, [97, 98, 99], [2]⟩) ∧
    ¬ (⟨FramerState.done, 2, [97, 98, 99], [2]⟩ : LoopState).checkLog = [] :=
  ⟨rfl, by decide⟩

theorem mem_of_mem_dropWhile {α : Type} {p : α → Bool} {x : α} :
    ∀ {l : List α}, x ∈ l.dropWhile p → x ∈ l := by
  intro l
  induction l with
  | nil => intro h; exact h
  | cons a as ih =>
    intro h
    rw [List.dropWhile_cons] at h
    by_cases hp : p a = true
    · rw [if_pos hp] at h
      exact List.mem_cons_of_mem _ (ih h)
    · rw [if_neg hp] at h
      exact h

theorem dropTail_append {c R : List Nat} (h2 : 2 ∈ c) :
    ((c ++ R).dropWhile (fun x => x != 2)).tail
      = ((c.dropWhile (fun x => x != 2)).tail) ++ R := by
  rw [dropWhile_append_stop _ ⟨2, h2, by simp⟩]
  have hne : ¬ (c.dropWhile (fun x => x != 2)) = [] := by
    intro hnil
    have := List.dropWhile_eq_nil_iff.mp hnil 2 h2
    simp at this
  obtain ⟨y, ys, hys⟩ := List.exists_cons_of_ne_nil hne
  rw [hys, List.cons_append, List.tail_cons, List.tail_cons]

theorem fetched_decomp (chunks : Nat → List Nat) (k n : Nat)
    (hk1 : 1 ≤ k) (hkn : k ≤ n) :
    fetched chunks n
      = (List.range' 1 (k - 1)).map chunks
          ++ chunks k :: (List.range' (k + 1) (n - k)).map chunks := by
  have hsplit : List.range' 1 n
      = List.range' 1 (k - 1) ++ List.range' k ((n - k) + 1) := by
    have h2' : 1 + (k - 1) = k := by omega
    have h3' : ((n - k) + 1) + (k - 1) = n := by omega
    calc List.range' 1 n = List.range' 1 (((n - k) + 1) + (k - 1)) := by rw [h3']
      _ = List.range' 1 (k - 1) ++ List.range' (1 + (k - 1)) ((n - k) + 1) :=
        (List.range'_append_1 1 (k - 1) ((n - k) + 1)).symm
      _ = List.range' 1 (k - 1) ++ List.range' k ((n - k) + 1) := by rw [h2']
  unfold fetched
  rw [hsplit, List.range'_succ, List.map_append, List.map_cons]

theorem fetched_pre_nil (chunks : Nat → List Nat) (k : Nat)
    (hpre : ∀ i, 1 ≤ i → i < k → chunks i = []) :
    ∀ x ∈ (List.range' 1 (k - 1)).map chunks, x = ([] : List Nat) := by
  intro x hx
  obtain ⟨i, hi, rfl⟩ := List.mem_map.mp hx
  obtain ⟨h1i, h2i⟩ := List.mem_range'_1.mp hi
  exact hpre i h1i (by omega)

/-- C4: if no START or END marker byte ever appears in the fetched stream,
every fetched byte is delivered verbatim and in order (the delivered output
is the exact concatenation of all fetched chunks), and the stream reaches
end-of-stream exactly at the first completion check the oracle answers
true. -/
theorem no_markers_pass_through
    (chunks : Nat → List Nat) (oracle : Nat → Except Unit Bool) (sched : Nat → Bool)
    (fuel : Nat) (f : LoopState)
    (hm : ∀ i, ¬ 2 ∈ chunks i ∧ ¬ 3 ∈ chunks i)
    (h : drive chunks oracle sched fuel initLS = some (DriveDone.eofD, f)) :
    f.output = (fetched chunks f.reads).flatten ∧
      oracle f.reads = Except.ok true ∧
      (∀ r ∈ f.checkLog, r = f.reads ∨ oracle r = Except.ok false) := by
  have hok := drive_okSt fuel initLS DriveDone.eofD f h (okSt_initLS chunks)
  obtain ⟨hchecks1, hchecks2⟩ :=
    drive_eof_checks fuel initLS f h (by intro r hr; cases hr)
  refine ⟨?_, hchecks1, hchecks2⟩
  rw [hok.2]
  show processAll FramerState.start (fetched chunks f.reads) = _
  refine processAll_no2 _ ?_
  intro c hc
  obtain ⟨i, _, rfl⟩ := List.mem_map.mp hc
  exact (hm i).1

/-- Witness for C4 at a concrete marker-free stream. -/
theorem no_markers_pass_through_witness :
    (⟨FramerState.passThrough, 3, [65], [1, 3]⟩ : LoopState).output
      = (fetched (fun i => if i = 2 then [65] else []) 3).flatten :=
  (no_markers_pass_through (fun i => if i = 2 then [65] else [])
    (fun r => Except.ok (decide (3 ≤ r))) (fun _ => true) 10
    ⟨FramerState.passThrough, 3, [65], [1, 3]⟩
    (fun i => by by_cases hi : i = 2 <;> simp [hi]) rfl).1

/-- C5: when the START marker is observed (it lies in the first non-empty
chunk, fetched at index k, which the run reaches) and no END marker is ever
sent, everything after the START is delivered as payload, the stream reaches
end-of-stream through a completion check the oracle answers true, and the
framer is still in the body state: no end marker ever occurred. -/
theorem start_without_end
    (chunks : Nat → List Nat) (oracle : Nat → Except Unit Bool) (sched : Nat → Bool)
    (k fuel : Nat) (f : LoopState)
    (hk1 : 1 ≤ k)
    (hpre : ∀ i, 1 ≤ i → i < k → chunks i = [])
    (h2 : 2 ∈ chunks k)
    (h3 : ∀ i, ¬ 3 ∈ chunks i)
    (h : drive chunks oracle sched fuel initLS = some (DriveDone.eofD, f))
    (hkr : k ≤ f.reads) :
    f.fs = FramerState.inBody ∧
      f.output = (((fetched chunks f.reads).flatten).dropWhile (fun x => x != 2)).tail ∧
      oracle f.reads = Except.ok true := by
  have hok := drive_okSt fuel initLS DriveDone.eofD f h (okSt_initLS chunks)
  obtain ⟨horacle, _⟩ :=
    drive_eof_checks fuel initLS f h (by intro r hr; cases hr)
  have hdec := fetched_decomp chunks k f.reads hk1 hkr
  have hprenil := fetched_pre_nil chunks k hpre
  -- the framer runs in framed mode and never sees an END marker
  have hfr : runFramer FramerState.start (fetched chunks f.reads)
      = (if 3 ∈ ((((chunks k).dropWhile (fun x => x != 2)).tail)
            :: (List.range' (k + 1) (f.reads - k)).map chunks).flatten
          then FramerState.done else FramerState.inBody,
        ((((chunks k).dropWhile (fun x => x != 2)).tail)
            :: (List.range' (k + 1) (f.reads - k)).map chunks).flatten.takeWhile
          (fun x => x != 3)) := by
    rw [hdec, runFramer_start_framed _ _ _ hprenil h2, runFramer_inBody_eq]
  have hno3 : ¬ 3 ∈ ((((chunks k).dropWhile (fun x => x != 2)).tail)
      :: (List.range' (k + 1) (f.reads - k)).map chunks).flatten := by
    intro hmem
    rw [List.mem_flatten] at hmem
    obtain ⟨l, hl, h3l⟩ := hmem
    rcases List.mem_cons.mp hl with rfl | hl2
    · exact h3 k (mem_of_mem_dropWhile (List.mem_of_mem_tail h3l))
    · obtain ⟨i, _, rfl⟩ := List.mem_map.mp hl2
      exact h3 i h3l
  have htake : ((((chunks k).dropWhile (fun x => x != 2)).tail)
      :: (List.range' (k + 1) (f.reads - k)).map chunks).flatten.takeWhile
        (fun x => x != 3)
      = ((((chunks k).dropWhile (fun x => x != 2)).tail)
          :: (List.range' (k + 1) (f.reads - k)).map chunks).flatten :=
    List.takeWhile_eq_self_iff.mpr (fun x hx => bne_three_of_mem hno3 hx)
  rw [if_neg hno3, htake] at hfr
  refine ⟨by rw [hok.1, hfr], ?_, horacle⟩
  rw [hok.2, hfr]
  show ((((chunks k).dropWhile (fun x => x != 2)).tail)
      :: (List.range' (k + 1) (f.reads - k)).map chunks).flatten
    = (((fetched chunks f.reads).flatten).dropWhile (fun x => x != 2)).tail
  rw [List.flatten_cons]
  rw [hdec, List.flatten_append, List.flatten_cons, join_all_nil hprenil,
    List.nil_append]
  rw [dropTail_append h2]

/-- Witness for C5 at a concrete stream: START and one byte at fetch 1,
nothing afterwards, oracle true from fetch 2 on. -/
theorem start_without_end_witness :
    (⟨FramerState.inBody, 2, [65], [2]⟩ : LoopState).output
      = (((fetched (fun i => if i = 1 then [2, 65] else []) 2).flatten).dropWhile
          (fun x => x != 2)).tail :=
  (start_without_end (fun i => if i = 1 then [2, 65] else [])
    (fun r => Except.ok (decide (2 ≤ r))) (fun _ => true) 1 10
    ⟨FramerState.inBody, 2, [65], [2]⟩ (by decide)
    (fun i hi1 hi2 => by omega)
    (by decide)
    (fun i => by by_cases hi : i = 1 <;> simp [hi])
    rfl (by decide)).2.1

/-- C7 (amended): in a framed stream (the START byte lies in the first
non-empty chunk), the payload delivered to the consumer never contains the
END byte 0x03: everything from the first END onward is withheld.  In
pass-through mode marker bytes are delivered verbatim, and a repeated 0x02
inside the frame is ordinary payload, so the unconditional claim fails. -/
theorem framed_output_no_end_marker
    (chunks : Nat → List Nat) (oracle : Nat → Except Unit Bool) (sched : Nat → Bool)
    (k fuel : Nat) (d : DriveDone) (f : LoopState)
    (hk1 : 1 ≤ k)
    (hpre : ∀ i, 1 ≤ i → i < k → chunks i = [])
    (h2 : 2 ∈ chunks k)
    (h : drive chunks oracle sched fuel initLS = some (d, f)) :
    ¬ 3 ∈ f.output := by
  have hok := drive_okSt fuel initLS d f h (okSt_initLS chunks)
  rw [hok.2]
  by_cases hkr : k ≤ f.reads
  · have hdec := fetched_decomp chunks k f.reads hk1 hkr
    have hprenil := fetched_pre_nil chunks k hpre
    rw [hdec, runFramer_start_framed _ _ _ hprenil h2, runFramer_inBody_eq]
    intro hmem
    have := List.mem_takeWhile_imp hmem
    simp at this
  · have hallnil : ∀ x ∈ fetched chunks f.reads, x = ([] : List Nat) := by
      intro x hx
      obtain ⟨i, hi, rfl⟩ := List.mem_map.mp hx
      obtain ⟨h1i, h2i⟩ := List.mem_range'_1.mp hi
      exact hpre i h1i (by omega)
    rw [runFramer_start_allNil _ hallnil]
    intro hmem
    cases hmem

/-- Witness for C7 (amended): the framed run of the C5 scenario delivers a
payload free of the END byte. -/
theorem framed_output_no_end_marker_witness :
    ¬ 3 ∈ (⟨FramerState.inBody, 2, [65], [2]⟩ : LoopState).output :=
  framed_output_no_end_marker (fun i => if i = 1 then [2, 65] else [])
    (fun r => Except.ok (decide (2 ≤ r))) (fun _ => true) 1 10 DriveDone.eofD
    ⟨FramerState.inBody, 2, [65], [2]⟩ (by decide)
    (fun i hi1 hi2 => by omega)
    (by decide) rfl

/-- C7 counterexample: on a stream whose first non-empty chunk carries no
START byte, the reader runs in pass-through mode and delivers the marker
bytes 0x03 and 0x02 to the consumer, so the claim that delivered payload
never contains a marker byte fails. -/
theorem payload_no_marker_bytes_cex :
    drive (fun i => if i = 1 then [3, 97] else if i = 2 then [2] else [])
        (fun r => Except.ok (decide (3 ≤ r))) (fun _ => true) 10 initLS
      = some (DriveDone.eofD, ⟨FramerState.passThrough, 3, [3, 97, 2], [3]⟩) ∧
    (2 ∈ ([3, 97, 2] : List Nat) ∧ 3 ∈ ([3, 97, 2] : List Nat)) := ⟨rfl, by decide⟩
